import Mathlib

/-!
Verification of the snapmag interaction core against its specification.

The definitions below are a shallow embedding of the TypeScript sources:

* `ImageMetadata`, `ScreenPoint`, `MenuState` mirror `src/types.ts`
  (`id`/`identity`, `path`/`locator`, `createdAt` a `Date.now()` timestamp).
* `merge` is the dedup applied inside `handleCopy` in `src/main.tsx`
  (lines 192-205): group by `id` via an insertion-ordered map, per group
  `reduce((a, b) => a.createdAt < b.createdAt ? a : b)`, then a stable
  `sort((a, b) => b.createdAt - a.createdAt)`.  JavaScript `Array.sort`
  is stable (ES2019), which `List.insertionSort` models exactly.
* `routeCore` / `handleNativeContextMenu` embed the top-level router of
  `src/main.tsx` (lines 72-136); `menuItems` the entry list of
  `src/components/ContextMenu.tsx` (lines 106-130); the lightbox-local
  router comes from `src/components/ImageLightbox.tsx`.
* Async handlers (`handleCopy`, `handleDelete`, `handleClearAll`) are
  embedded as state transformers over `AppState`, with the possible
  rejection of each awaited store call passed in as an `Outcome` and the
  sequence of awaited store effects recorded as a trace.
-/

structure ImageMetadata where
  id : String
  path : String
  createdAt : Nat
deriving DecidableEq, Repr

structure ScreenPoint where
  x : Int
  y : Int
deriving DecidableEq, Repr

/-- App-level context-menu state: `{ position, image }` in `main.tsx`.
`position = none` means hidden; `image = none` with a position means the
clear-all menu. -/
structure MenuState where
  position : Option ScreenPoint
  image : Option ImageMetadata
deriving DecidableEq, Repr

/-! ### Merge / dedup engine (`handleCopy`, `main.tsx` 192-205) -/

/-- Key order of the `Map` built by `contentGroups.set`: first occurrence
of each `id`, in input order. -/
def dedupIdsAux (seen : List String) : List String → List String
  | [] => []
  | k :: ks => if k ∈ seen then dedupIdsAux seen ks else k :: dedupIdsAux (k :: seen) ks

def dedupIds (l : List ImageMetadata) : List String :=
  dedupIdsAux [] (l.map (·.id))

/-- The group stored under key `k`: all records of `l` with `id = k`,
in input order. -/
def groupOf (l : List ImageMetadata) (k : String) : List ImageMetadata :=
  l.filter (fun img => img.id == k)

/-- `imgs.reduce((a, b) => a.createdAt < b.createdAt ? a : b)` with
accumulator `h` and remaining elements `t`. -/
def oldestIn (h : ImageMetadata) (t : List ImageMetadata) : ImageMetadata :=
  t.foldl (fun a b => if a.createdAt < b.createdAt then a else b) h

/-- The record pushed to `result` for key `k` (none when the group is
empty, which never happens for keys of the map). -/
def pickOldest (l : List ImageMetadata) (k : String) : Option ImageMetadata :=
  match groupOf l k with
  | [] => none
  | h :: t => some (oldestIn h t)

/-- `a` may come before `b` under the comparator
`(a, b) => b.createdAt - a.createdAt`. -/
def byNewest (a b : ImageMetadata) : Prop :=
  b.createdAt ≤ a.createdAt

instance : DecidableRel byNewest := fun a b => Nat.decLe b.createdAt a.createdAt

instance : IsTotal ImageMetadata byNewest :=
  ⟨fun a b => Nat.le_total b.createdAt a.createdAt⟩

instance : IsTrans ImageMetadata byNewest :=
  ⟨fun _ _ _ h1 h2 => Nat.le_trans h2 h1⟩

/-- The dedup in `handleCopy`'s `setImages` updater: group by `id`
(insertion-ordered), keep the `reduce`-selected record of each group,
stable-sort the kept records by `createdAt` descending. -/
def merge (l : List ImageMetadata) : List ImageMetadata :=
  ((dedupIds l).filterMap (pickOldest l)).insertionSort byNewest

/-! ### Top-level interaction router (`main.tsx` 72-136) -/

/-- Outcome of the DOM hit test under the pointer.  Each `closest` lookup
may find no ancestor (`none`) or an ancestor whose `data-image-path`
attribute may itself be missing (`some none`). -/
structure HitTarget where
  imageCardAttr : Option (Option String)
  lightboxAttr : Option (Option String)
  inMain : Bool
deriving DecidableEq, Repr

/-- `imagesRef.current.find(img => img.path === imagePath)`. -/
def findByPath (images : List ImageMetadata) (p : String) : Option ImageMetadata :=
  images.find? (fun img => img.path == p)

/-- Resolve one `closest`-plus-attribute lookup to a record of the list. -/
def resolveAttr (images : List ImageMetadata) : Option (Option String) → Option ImageMetadata
  | none => none
  | some none => none
  | some (some p) => findByPath images p

/-- The card lookup first; on failure (no card, missing attribute, or no
matching record) the code falls through to the lightbox-image lookup. -/
def resolveHit (images : List ImageMetadata) (hit : HitTarget) : Option ImageMetadata :=
  match resolveAttr images hit.imageCardAttr with
  | some img => some img
  | none => resolveAttr images hit.lightboxAttr

/-- What one run of the router did: `menuSet = some m` iff
`setContextMenu(m)` was called, `prevented` iff `e.preventDefault()` ran. -/
structure RouterResult where
  menuSet : Option MenuState
  prevented : Bool
deriving DecidableEq, Repr

/-- `handleNativeContextMenu` after the debounce guard: the menu-open
early return, then `e.preventDefault()`, then the hit-test cascade. -/
def routeCore (menuOpen : Bool) (hit : HitTarget) (images : List ImageMetadata)
    (x y : Int) : RouterResult :=
  if menuOpen then ⟨none, false⟩
  else
    match resolveAttr images hit.imageCardAttr with
    | some img => ⟨some ⟨some ⟨x, y⟩, some img⟩, true⟩
    | none =>
      match resolveAttr images hit.lightboxAttr with
      | some img => ⟨some ⟨some ⟨x, y⟩, some img⟩, true⟩
      | none =>
        if hit.inMain && decide (0 < images.length) then ⟨some ⟨some ⟨x, y⟩, none⟩, true⟩
        else ⟨none, true⟩

/-- `handleNativeContextMenu` (`main.tsx` 72-136).  `now - lastClose` is
`Nat` subtraction; `Date.now()` is nondecreasing so this matches the JS
difference on every reachable input. -/
def handleNativeContextMenu (now lastClose : Nat) (menuOpen : Bool) (hit : HitTarget)
    (images : List ImageMetadata) (x y : Int) : RouterResult :=
  if now - lastClose < 300 then ⟨none, false⟩
  else routeCore menuOpen hit images x y

/-! ### Menu presenter entries (`ContextMenu.tsx` 106-130) -/

inductive MenuAction
  | copy
  | delete
  | clearAll
deriving DecidableEq, Repr

/-- `menuItems`: two entries (copy, delete) when an image target is
present, one entry (clear-all) otherwise. -/
def menuItems (image : Option ImageMetadata) : List MenuAction :=
  match image with
  | some _ => [MenuAction.copy, MenuAction.delete]
  | none => [MenuAction.clearAll]

/-! ### App-level state and handlers (`main.tsx`) -/

structure AppState where
  images : List ImageMetadata
  contextMenu : MenuState
  lightboxOpen : Bool
  lightboxIndex : Nat
  lastCloseTime : Nat
deriving DecidableEq, Repr

/-- `handleCloseContextMenu` (177-180): record the close time, hide the
menu. -/
def handleCloseContextMenu (s : AppState) (now : Nat) : AppState :=
  { s with lastCloseTime := now, contextMenu := ⟨none, none⟩ }

/-- The `onContextMenuClose` callback passed to the lightbox (286-288):
records the close time only. -/
def lightboxMenuCloseNotify (s : AppState) (now : Nat) : AppState :=
  { s with lastCloseTime := now }

/-- `handleImageClick` (232-235): open the lightbox at `index`. -/
def handleImageClick (s : AppState) (index : Nat) : AppState :=
  { s with lightboxIndex := index, lightboxOpen := true }

/-- The app renders `<ContextMenu>` only under `!lightboxOpen` (259-277),
and the presenter renders nothing when `position` is null. -/
def topMenuRendered (s : AppState) : Bool :=
  !s.lightboxOpen && s.contextMenu.position.isSome

/-- `onReposition` (267-275): resolve the target path and set the menu
state directly to the new position. -/
def onReposition (s : AppState) (pos : ScreenPoint) (targetImagePath : Option String) :
    AppState :=
  let targetImage := match targetImagePath with
    | some p => findByPath s.images p
    | none => none
  { s with contextMenu := ⟨some pos, targetImage⟩ }

/-- The successive menu states produced by one top-level reposition: a
single direct `setContextMenu` call. -/
def onRepositionFrames (images : List ImageMetadata) (pos : ScreenPoint)
    (targetImagePath : Option String) : List MenuState :=
  [⟨some pos, match targetImagePath with
    | some p => findByPath images p
    | none => none⟩]

/-! ### Async store handlers (`main.tsx` 182-230) -/

/-- Whether an awaited store call resolved or rejected. -/
inductive Outcome
  | ok
  | err
deriving DecidableEq, Repr

/-- The awaited store effects of `handleCopy`, in call order. -/
inductive StoreEffect
  | resetClipboardHash
  | copyFileToClipboard (path : String)
  | sleep (ms : Nat)
  | getImages
  | applyMergeDedup
deriving DecidableEq, Repr

/-- `handleCopy` (182-209) as a state transformer that also records the
trace of store effects it awaited, in order.  A rejection of a step skips
everything after it (the `try` block aborts into `catch`).  `fetch` is
the result of the inner `getImages` call of `loadImages`: `loadImages`
swallows its own failure, so on `fetch = none` the list is left as-is and
the dedup still runs. -/
def handleCopy (s : AppState) (img : ImageMetadata) (oReset oCopy : Outcome)
    (fetch : Option (List ImageMetadata)) : List StoreEffect × AppState :=
  match oReset with
  | .err => ([.resetClipboardHash], s)
  | .ok =>
    match oCopy with
    | .err => ([.resetClipboardHash, .copyFileToClipboard img.path], s)
    | .ok =>
      let afterLoad := match fetch with
        | some data => data
        | none => s.images
      ([.resetClipboardHash, .copyFileToClipboard img.path, .sleep 100,
        .getImages, .applyMergeDedup],
       { s with images := merge afterLoad })

/-- `handleDelete` (211-221): the optimistic removal runs only after the
store delete resolved. -/
def handleDelete (s : AppState) (img : ImageMetadata) (o : Outcome) : AppState :=
  match o with
  | .ok => { s with images := s.images.filter (fun i => !(i.id == img.id)) }
  | .err => s

/-- `handleClearAll` (223-230). -/
def handleClearAll (s : AppState) (o : Outcome) : AppState :=
  match o with
  | .ok => { s with images := [] }
  | .err => s

/-- A click on a menu entry (`ContextMenu.tsx` 183-186) runs
`item.onClick()` then `onClose()` unconditionally; the store action's
eventual state update and the close both land on the app state. -/
def clickCopyEntry (s : AppState) (img : ImageMetadata) (oReset oCopy : Outcome)
    (fetch : Option (List ImageMetadata)) (now : Nat) : AppState :=
  handleCloseContextMenu (handleCopy s img oReset oCopy fetch).2 now

def clickDeleteEntry (s : AppState) (img : ImageMetadata) (o : Outcome) (now : Nat) :
    AppState :=
  handleCloseContextMenu (handleDelete s img o) now

def clickClearEntry (s : AppState) (o : Outcome) (now : Nat) : AppState :=
  handleCloseContextMenu (handleClearAll s o) now

/-! ### Lightbox-local router (`ImageLightbox.tsx` 168-224) -/

structure LightboxState where
  images : List ImageMetadata
  currentIndex : Nat
  menu : MenuState
  isClosing : Bool
deriving DecidableEq, Repr

/-- What one run of the lightbox's `handleContextMenu` did: the
successive `setContextMenu` states (the second one applied on the next
animation frame) and whether `e.preventDefault()` ran. -/
structure LightboxRouteResult where
  frames : List MenuState
  prevented : Bool
deriving DecidableEq, Repr

/-- `handleContextMenu` (`ImageLightbox.tsx` 171-201): the `isClosing`
early return; with a menu open, `preventDefault`, clear, and on the next
frame re-set to the current record when one exists; otherwise open only
when a record exists at the current index. -/
def lightboxHandleContextMenu (s : LightboxState) (x y : Int) : LightboxRouteResult :=
  if s.isClosing then ⟨[], false⟩
  else if s.menu.position.isSome then
    ⟨⟨none, none⟩ :: (match s.images[s.currentIndex]? with
      | some img => [⟨some ⟨x, y⟩, some img⟩]
      | none => []), true⟩
  else
    match s.images[s.currentIndex]? with
    | some img => ⟨[⟨some ⟨x, y⟩, some img⟩], true⟩
    | none => ⟨[], false⟩

/-- `showContextMenu` (210-224): always clear, then on the next frame
re-set to the current record when one exists. -/
def showContextMenu (s : LightboxState) (x y : Int) : List MenuState :=
  ⟨none, none⟩ :: (match s.images[s.currentIndex]? with
    | some img => [⟨some ⟨x, y⟩, some img⟩]
    | none => [])

/-! ### Lemmas about the merge engine -/

theorem mem_dedupIdsAux {k : String} : ∀ {ks seen : List String},
    k ∈ dedupIdsAux seen ks ↔ k ∈ ks ∧ k ∉ seen := by
  intro ks
  induction ks with
  | nil => intro seen; simp [dedupIdsAux]
  | cons k' ks ih =>
    intro seen
    simp only [dedupIdsAux, List.mem_cons]
    by_cases h : k' ∈ seen
    · rw [if_pos h, ih]
      constructor
      · exact fun hp => ⟨Or.inr hp.1, hp.2⟩
      · rintro ⟨rfl | hk, hn⟩
        · exact absurd h hn
        · exact ⟨hk, hn⟩
    · rw [if_neg h]
      simp only [List.mem_cons, ih, List.mem_cons]
      constructor
      · rintro (rfl | ⟨hk, hn⟩)
        · exact ⟨Or.inl rfl, h⟩
        · exact ⟨Or.inr hk, fun hs => hn (Or.inr hs)⟩
      · rintro ⟨hk | hk, hn⟩
        · exact Or.inl hk
        · by_cases hkk : k = k'
          · exact Or.inl hkk
          · refine Or.inr ⟨hk, ?_⟩
            rintro (h1 | h1)
            · exact hkk h1
            · exact hn h1

theorem nodup_dedupIdsAux : ∀ (ks seen : List String), (dedupIdsAux seen ks).Nodup := by
  intro ks
  induction ks with
  | nil => intro seen; simp [dedupIdsAux]
  | cons k' ks ih =>
    intro seen
    simp only [dedupIdsAux]
    by_cases h : k' ∈ seen
    · rw [if_pos h]; exact ih seen
    · rw [if_neg h]
      refine List.nodup_cons.mpr ⟨?_, ih _⟩
      intro hmem
      exact (mem_dedupIdsAux.mp hmem).2 (List.mem_cons_self _ _)

theorem mem_dedupIds {k : String} {l : List ImageMetadata} :
    k ∈ dedupIds l ↔ k ∈ l.map (·.id) := by
  simp [dedupIds, mem_dedupIdsAux]

theorem nodup_dedupIds (l : List ImageMetadata) : (dedupIds l).Nodup :=
  nodup_dedupIdsAux _ []

theorem dedupIdsAux_eq_self : ∀ {ks seen : List String}, ks.Nodup →
    (∀ k ∈ ks, k ∉ seen) → dedupIdsAux seen ks = ks := by
  intro ks
  induction ks with
  | nil => intro seen _ _; rfl
  | cons k' ks ih =>
    intro seen hnd hdis
    simp only [dedupIdsAux, if_neg (hdis k' (List.mem_cons_self _ _))]
    congr 1
    refine ih (List.nodup_cons.mp hnd).2 ?_
    intro k hk
    simp only [List.mem_cons]
    rintro (rfl | hs)
    · exact (List.nodup_cons.mp hnd).1 hk
    · exact hdis k (List.mem_cons_of_mem _ hk) hs

theorem groupOf_cons (r : ImageMetadata) (l : List ImageMetadata) (k : String) :
    groupOf (r :: l) k = if r.id == k then r :: groupOf l k else groupOf l k := by
  simp only [groupOf, List.filter_cons]

theorem mem_groupOf {s : ImageMetadata} {l : List ImageMetadata} {k : String} :
    s ∈ groupOf l k ↔ s ∈ l ∧ s.id = k := by
  simp [groupOf, List.mem_filter]

theorem oldestIn_spec (h : ImageMetadata) (t : List ImageMetadata) :
    ∃ pre post, h :: t = pre ++ oldestIn h t :: post ∧
      (∀ s ∈ h :: t, (oldestIn h t).createdAt ≤ s.createdAt) ∧
      (∀ s ∈ post, (oldestIn h t).createdAt < s.createdAt) := by
  induction t generalizing h with
  | nil =>
    refine ⟨[], [], rfl, ?_, by simp⟩
    intro s hs
    have hs' : s = h := by simpa using hs
    simp [oldestIn, hs']
  | cons b t ih =>
    have hfold : oldestIn h (b :: t) = oldestIn (if h.createdAt < b.createdAt then h else b) t := rfl
    by_cases hcmp : h.createdAt < b.createdAt
    · rw [hfold, if_pos hcmp]
      obtain ⟨pre, post, hdec, hmin, hpost⟩ := ih h
      have hoh : (oldestIn h t).createdAt ≤ h.createdAt := hmin h (List.mem_cons_self _ _)
      cases pre with
      | nil =>
        simp only [List.nil_append, List.cons.injEq] at hdec
        obtain ⟨h1, h2⟩ := hdec
        refine ⟨[], b :: t, ?_, ?_, ?_⟩
        · simp [← h1]
        · intro s hs
          rcases List.mem_cons.mp hs with rfl | hs
          · exact hoh
          · rcases List.mem_cons.mp hs with rfl | hs
            · exact Nat.le_trans hoh (Nat.le_of_lt hcmp)
            · exact hmin s (List.mem_cons_of_mem _ hs)
        · intro s hs
          rcases List.mem_cons.mp hs with rfl | hs
          · exact Nat.lt_of_le_of_lt hoh hcmp
          · exact hpost s (h2 ▸ hs)
      | cons p pre' =>
        simp only [List.cons_append, List.cons.injEq] at hdec
        obtain ⟨h1, h2⟩ := hdec
        refine ⟨h :: b :: pre', post, ?_, ?_, hpost⟩
        · simp only [List.cons_append, List.cons.injEq]
          exact ⟨trivial, trivial, h2⟩
        · intro s hs
          rcases List.mem_cons.mp hs with rfl | hs
          · exact hoh
          · rcases List.mem_cons.mp hs with rfl | hs
            · exact Nat.le_trans hoh (Nat.le_of_lt hcmp)
            · exact hmin s (List.mem_cons_of_mem _ hs)
    · rw [hfold, if_neg hcmp]
      obtain ⟨pre, post, hdec, hmin, hpost⟩ := ih b
      have hob : (oldestIn b t).createdAt ≤ b.createdAt := hmin b (List.mem_cons_self _ _)
      refine ⟨h :: pre, post, ?_, ?_, hpost⟩
      · simp only [List.cons_append, List.cons.injEq]
        exact ⟨trivial, hdec⟩
      · intro s hs
        rcases List.mem_cons.mp hs with rfl | hs
        · exact Nat.le_trans hob (Nat.le_of_not_lt hcmp)
        · exact hmin s hs

theorem oldestIn_mem (h : ImageMetadata) (t : List ImageMetadata) :
    oldestIn h t ∈ h :: t := by
  obtain ⟨pre, post, hdec, _, _⟩ := oldestIn_spec h t
  rw [hdec]
  exact List.mem_append_right _ (List.mem_cons_self _ _)

theorem pickOldest_eq_some {l : List ImageMetadata} {k : String} {r : ImageMetadata}
    (h : pickOldest l k = some r) :
    r ∈ groupOf l k ∧ ∃ pre post, groupOf l k = pre ++ r :: post ∧
      (∀ s ∈ groupOf l k, r.createdAt ≤ s.createdAt) ∧
      (∀ s ∈ post, r.createdAt < s.createdAt) := by
  unfold pickOldest at h
  cases hg : groupOf l k with
  | nil => rw [hg] at h; exact absurd h (by simp)
  | cons gh gt =>
    rw [hg] at h
    have hr : oldestIn gh gt = r := by
      injection h
    obtain ⟨pre, post, hdec, hmin, hpost⟩ := oldestIn_spec gh gt
    rw [hr] at hdec hmin hpost
    refine ⟨?_, pre, post, hdec, hmin, hpost⟩
    rw [hdec]
    exact List.mem_append_right _ (List.mem_cons_self _ _)

theorem pickOldest_id {l : List ImageMetadata} {k : String} {r : ImageMetadata}
    (h : pickOldest l k = some r) : r.id = k :=
  (mem_groupOf.mp (pickOldest_eq_some h).1).2

theorem pickOldest_mem {l : List ImageMetadata} {k : String} {r : ImageMetadata}
    (h : pickOldest l k = some r) : r ∈ l :=
  (mem_groupOf.mp (pickOldest_eq_some h).1).1

theorem pickOldest_isSome_of_mem {l : List ImageMetadata} {k : String}
    (h : k ∈ l.map (·.id)) : ∃ r, pickOldest l k = some r := by
  obtain ⟨img, hmem, hid⟩ := List.mem_map.mp h
  have hg : img ∈ groupOf l k := mem_groupOf.mpr ⟨hmem, hid⟩
  unfold pickOldest
  cases hge : groupOf l k with
  | nil => rw [hge] at hg; cases hg
  | cons gh gt => exact ⟨_, rfl⟩

theorem map_id_filterMap_pickOldest (l : List ImageMetadata) :
    ∀ ks : List String, (∀ k ∈ ks, k ∈ l.map (·.id)) →
      ((ks.filterMap (pickOldest l)).map (·.id)) = ks := by
  intro ks
  induction ks with
  | nil => intro _; rfl
  | cons k ks ih =>
    intro hall
    obtain ⟨r, hr⟩ := pickOldest_isSome_of_mem (hall k (List.mem_cons_self _ _))
    rw [List.filterMap_cons, hr]
    simp only [List.map_cons]
    rw [pickOldest_id hr, ih (fun k' hk' => hall k' (List.mem_cons_of_mem _ hk'))]

theorem merge_map_id_perm (l : List ImageMetadata) :
    ((merge l).map (·.id)).Perm (dedupIds l) := by
  have h1 := (List.perm_insertionSort byNewest ((dedupIds l).filterMap (pickOldest l))).map
    (fun img => img.id)
  rw [map_id_filterMap_pickOldest l (dedupIds l) (fun k hk => mem_dedupIds.mp hk)] at h1
  exact h1

theorem merge_ids_nodup (l : List ImageMetadata) : ((merge l).map (·.id)).Nodup :=
  (merge_map_id_perm l).nodup_iff.mpr (nodup_dedupIds l)

theorem mem_merge_ids {l : List ImageMetadata} {k : String} :
    k ∈ (merge l).map (·.id) ↔ k ∈ l.map (·.id) := by
  rw [(merge_map_id_perm l).mem_iff, mem_dedupIds]

theorem mem_merge_pick {l : List ImageMetadata} {r : ImageMetadata} (h : r ∈ merge l) :
    pickOldest l r.id = some r := by
  have h1 : r ∈ (dedupIds l).filterMap (pickOldest l) := by
    simpa [merge] using h
  obtain ⟨k, _, hpick⟩ := List.mem_filterMap.mp h1
  have hk : r.id = k := pickOldest_id hpick
  rw [hk]
  exact hpick

theorem merge_sorted (l : List ImageMetadata) :
    List.Pairwise (fun a b => b.createdAt ≤ a.createdAt) (merge l) :=
  List.sorted_insertionSort byNewest ((dedupIds l).filterMap (pickOldest l))

theorem filterMap_pickOldest_self : ∀ M : List ImageMetadata,
    (M.map (·.id)).Nodup → (M.map (·.id)).filterMap (pickOldest M) = M := by
  intro M
  induction M with
  | nil => intro _; rfl
  | cons r M ih =>
    intro hnd
    have hnd' : r.id ∉ M.map (·.id) ∧ (M.map (·.id)).Nodup := by
      simpa [List.nodup_cons] using hnd
    have hgroupM : groupOf M r.id = [] := by
      refine List.filter_eq_nil_iff.mpr ?_
      intro a ha hbeq
      exact hnd'.1 (List.mem_map.mpr ⟨a, ha, by simpa using hbeq⟩)
    have hpick : pickOldest (r :: M) r.id = some r := by
      rw [pickOldest, groupOf_cons, if_pos (by simp), hgroupM]
      rfl
    have hcong : (M.map (·.id)).filterMap (pickOldest (r :: M)) =
        (M.map (·.id)).filterMap (pickOldest M) := by
      refine List.filterMap_congr ?_
      intro k hk
      have hne : ¬(r.id == k) = true := by
        simp only [beq_iff_eq]
        intro he
        exact hnd'.1 (he ▸ hk)
      rw [pickOldest, pickOldest, groupOf_cons, if_neg hne]
    simp only [List.map_cons, List.filterMap_cons, hpick]
    rw [hcong, ih hnd'.2]

/-- A helper for C3/C7: with no menu open and past the debounce guard the
router is the hit-test cascade over `resolveHit`. -/
theorem routeCore_false (hit : HitTarget) (images : List ImageMetadata) (x y : Int) :
    routeCore false hit images x y =
      match resolveHit images hit with
      | some img => ⟨some ⟨some ⟨x, y⟩, some img⟩, true⟩
      | none =>
        if hit.inMain && decide (0 < images.length) then ⟨some ⟨some ⟨x, y⟩, none⟩, true⟩
        else ⟨none, true⟩ := by
  rw [routeCore, resolveHit]
  cases resolveAttr images hit.imageCardAttr <;> rfl

/-! ### Claim theorems -/

/-- C1 counterexample: the claim's tie-break ("on equal `createdAt` keep
the record earliest in the input order") fails — for two same-identity
records with equal timestamps, `merge` keeps the second one. -/
theorem c1_tie_break_counterexample :
    merge [⟨"k", "p1", 5⟩, ⟨"k", "p2", 5⟩] = [⟨"k", "p2", 5⟩] ∧
    (⟨"k", "p2", 5⟩ : ImageMetadata) ≠ ⟨"k", "p1", 5⟩ := by
  decide

/-- C1 (amended): `merge` keeps exactly one record per distinct identity
of the input; each kept record attains the minimal `createdAt` of its
identity group and every group member after it is strictly newer (so on
equal `createdAt` the record latest in input order is kept, not the
earliest); the output is sorted by `createdAt` descending. -/
theorem c1_merge_characterization (l : List ImageMetadata) :
    ((merge l).map (·.id)).Nodup ∧
    (∀ k, k ∈ (merge l).map (·.id) ↔ k ∈ l.map (·.id)) ∧
    (∀ r ∈ merge l, r ∈ l ∧
      (∀ s ∈ l, s.id = r.id → r.createdAt ≤ s.createdAt) ∧
      ∃ pre post, groupOf l r.id = pre ++ r :: post ∧
        ∀ s ∈ post, r.createdAt < s.createdAt) ∧
    List.Pairwise (fun a b => b.createdAt ≤ a.createdAt) (merge l) := by
  refine ⟨merge_ids_nodup l, fun k => mem_merge_ids, ?_, merge_sorted l⟩
  intro r hr
  obtain ⟨hmemg, pre, post, hdec, hmin, hpost⟩ := pickOldest_eq_some (mem_merge_pick hr)
  refine ⟨(mem_groupOf.mp hmemg).1, ?_, pre, post, hdec, hpost⟩
  intro s hs hsid
  exact hmin s (mem_groupOf.mpr ⟨hs, hsid⟩)

/-- Witness for C1 (amended) at a concrete input: the kept record of the
duplicated identity is a member of the input list. -/
theorem c1_merge_characterization_witness :
    (⟨"a", "p3", 1⟩ : ImageMetadata) ∈ merge [⟨"a", "p1", 3⟩, ⟨"b", "p2", 7⟩, ⟨"a", "p3", 1⟩] ∧
    (⟨"a", "p3", 1⟩ : ImageMetadata) ∈ [⟨"a", "p1", 3⟩, ⟨"b", "p2", 7⟩, ⟨"a", "p3", 1⟩] := by
  refine ⟨by decide, ?_⟩
  exact ((c1_merge_characterization [⟨"a", "p1", 3⟩, ⟨"b", "p2", 7⟩, ⟨"a", "p3", 1⟩]).2.2.1
    ⟨"a", "p3", 1⟩ (by decide)).1

/-- C2: the merge function is idempotent. -/
theorem c2_merge_idempotent (l : List ImageMetadata) : merge (merge l) = merge l := by
  have hnd := merge_ids_nodup l
  have hded : dedupIds (merge l) = (merge l).map (·.id) := by
    rw [dedupIds]
    exact dedupIdsAux_eq_self hnd (by simp)
  conv_lhs => rw [merge]
  rw [hded, filterMap_pickOldest_self _ hnd]
  exact List.Sorted.insertionSort_eq (merge_sorted l)

/-- C3: with no menu open and outside the suppression window, a right
click whose hit target resolves to a record of the current list opens the
two-entry item menu (copy, delete) for that record; otherwise, a hit on
the main gallery surface with a non-empty list opens the one-entry clear
menu; otherwise — including every empty-list case — no menu opens. -/
theorem c3_router_decision (now lastClose : Nat) (hit : HitTarget)
    (images : List ImageMetadata) (x y : Int) (hdeb : 300 ≤ now - lastClose) :
    (∀ img, resolveHit images hit = some img →
      handleNativeContextMenu now lastClose false hit images x y =
        ⟨some ⟨some ⟨x, y⟩, some img⟩, true⟩ ∧ (menuItems (some img)).length = 2) ∧
    (resolveHit images hit = none → hit.inMain = true → images ≠ [] →
      handleNativeContextMenu now lastClose false hit images x y =
        ⟨some ⟨some ⟨x, y⟩, none⟩, true⟩ ∧ (menuItems none).length = 1) ∧
    (resolveHit images hit = none → ¬(hit.inMain = true ∧ images ≠ []) →
      (handleNativeContextMenu now lastClose false hit images x y).menuSet = none) := by
  have hroute : handleNativeContextMenu now lastClose false hit images x y =
      routeCore false hit images x y := if_neg (by omega)
  refine ⟨?_, ?_, ?_⟩
  · intro img hres
    rw [hroute, routeCore_false, hres]
    exact ⟨rfl, rfl⟩
  · intro hres hmain hne
    have hcond : (hit.inMain && decide (0 < images.length)) = true := by
      rw [hmain]
      simpa [List.length_pos] using hne
    rw [hroute, routeCore_false, hres]
    exact ⟨if_pos hcond, rfl⟩
  · intro hres hcond
    have hcondf : (hit.inMain && decide (0 < images.length)) = false := by
      rcases Bool.eq_false_or_eq_true hit.inMain with hm | hm
      · have hnil : images = [] := by
          by_contra hne
          exact hcond ⟨hm, hne⟩
        simp [hnil]
      · simp [hm]
    rw [hroute, routeCore_false]
    simp [hres, hcondf]

/-- Witness for C3 at a concrete input: a hit on a thumbnail whose path
matches the single record opens the item menu for it. -/
theorem c3_router_decision_witness :
    handleNativeContextMenu 400 0 false ⟨some (some "p1"), none, true⟩
      [⟨"a", "p1", 3⟩] 7 9 = ⟨some ⟨some ⟨7, 9⟩, some ⟨"a", "p1", 3⟩⟩, true⟩ := by
  exact ((c3_router_decision 400 0 ⟨some (some "p1"), none, true⟩ [⟨"a", "p1", 3⟩] 7 9
    (by decide)).1 ⟨"a", "p1", 3⟩ (by decide)).1

/-- C4: a right-click less than 300ms after the last menu close is a
no-op (no state change, no `preventDefault`); at 300ms or more the event
is routed normally; both menu-closure paths record the close time used by
the check. -/
theorem c4_suppression_window :
    (∀ (now lastClose : Nat) (menuOpen : Bool) (hit : HitTarget)
      (images : List ImageMetadata) (x y : Int), now - lastClose < 300 →
      handleNativeContextMenu now lastClose menuOpen hit images x y = ⟨none, false⟩) ∧
    (∀ (now lastClose : Nat) (menuOpen : Bool) (hit : HitTarget)
      (images : List ImageMetadata) (x y : Int), 300 ≤ now - lastClose →
      handleNativeContextMenu now lastClose menuOpen hit images x y =
        routeCore menuOpen hit images x y) ∧
    (∀ (s : AppState) (now : Nat), (handleCloseContextMenu s now).lastCloseTime = now) ∧
    (∀ (s : AppState) (now : Nat), (lightboxMenuCloseNotify s now).lastCloseTime = now) := by
  refine ⟨?_, ?_, fun s now => rfl, fun s now => rfl⟩
  · intro now lastClose menuOpen hit images x y h
    exact if_pos h
  · intro now lastClose menuOpen hit images x y h
    exact if_neg (by omega)

/-- Witness for C4 at concrete times: a click 100ms after a close at 0 is
a no-op, and a close at time 42 records 42. -/
theorem c4_suppression_window_witness :
    handleNativeContextMenu 100 0 false ⟨none, none, true⟩ [] 0 0 = ⟨none, false⟩ ∧
    (handleCloseContextMenu ⟨[], ⟨none, none⟩, false, 0, 0⟩ 42).lastCloseTime = 42 := by
  exact ⟨c4_suppression_window.1 100 0 false ⟨none, none, true⟩ [] 0 0 (by decide),
    c4_suppression_window.2.2.1 ⟨[], ⟨none, none⟩, false, 0, 0⟩ 42⟩

/-- C5 counterexample: opening the lightbox leaves the top-level menu
state untouched — the stored position stays non-null, contrary to the
claim that the state becomes absent. -/
theorem c5_menu_state_counterexample :
    (handleImageClick ⟨[], ⟨some ⟨1, 2⟩, none⟩, false, 0, 0⟩ 0).contextMenu.position =
      some ⟨1, 2⟩ ∧ (some ⟨1, 2⟩ : Option ScreenPoint) ≠ none := by
  exact ⟨rfl, by decide⟩

/-- C5 (amended): opening the full-view overlay does not reset the
top-level menu state (it is kept verbatim), but the presenter is mounted
only while the overlay is closed, so after the overlay-open transition
the top-level menu is no longer rendered — no two menus are visible. -/
theorem c5_overlay_hides_menu (s : AppState) (index : Nat) :
    topMenuRendered (handleImageClick s index) = false ∧
    (handleImageClick s index).contextMenu = s.contextMenu := by
  exact ⟨rfl, rfl⟩

/-- C6 counterexample: the top-level reposition (`onReposition`) produces
a single frame that already carries the new position — it never passes
through a hidden (position-null) state, contrary to the claim. -/
theorem c6_direct_reposition_counterexample :
    onRepositionFrames [⟨"a", "p1", 3⟩] ⟨5, 6⟩ (some "p1") =
      [⟨some ⟨5, 6⟩, some ⟨"a", "p1", 3⟩⟩] ∧
    (⟨some ⟨5, 6⟩, some ⟨"a", "p1", 3⟩⟩ : MenuState).position ≠ none := by
  decide

/-- C6 (amended): the overlay's local repositions (`handleContextMenu`
with a menu open, and `showContextMenu`) do go through a one-frame hidden
state before re-setting the position, but the top-level reposition
(`onReposition`) mutates the menu state directly to the new position with
no intervening hidden frame. -/
theorem c6_reposition_frames (s : LightboxState) (x y : Int)
    (images : List ImageMetadata) (pos : ScreenPoint) (tp : Option String)
    (hopen : s.menu.position.isSome = true) (hnc : s.isClosing = false) :
    (lightboxHandleContextMenu s x y).frames.head? = some ⟨none, none⟩ ∧
    (showContextMenu s x y).head? = some ⟨none, none⟩ ∧
    onRepositionFrames images pos tp =
      [⟨some pos, match tp with | some p => findByPath images p | none => none⟩] := by
  refine ⟨?_, rfl, rfl⟩
  rw [lightboxHandleContextMenu, if_neg (by simp [hnc]), if_pos hopen]
  rfl

/-- Witness for C6 (amended) at a concrete overlay state with a menu
open: the first frame of the reposition is the hidden state. -/
theorem c6_reposition_frames_witness :
    (lightboxHandleContextMenu ⟨[], 0, ⟨some ⟨0, 0⟩, none⟩, false⟩ 1 2).frames.head? =
      some ⟨none, none⟩ := by
  exact (c6_reposition_frames ⟨[], 0, ⟨some ⟨0, 0⟩, none⟩, false⟩ 1 2 [] ⟨0, 0⟩ none
    (by decide) rfl).1

/-- C7 counterexample: on the final no-op branch (hit outside every
recognized surface, empty list) the router emits no menu decision yet
still suppresses the platform default, contrary to the claim. -/
theorem c7_noop_suppression_counterexample :
    (handleNativeContextMenu 1000 0 false ⟨none, none, false⟩ [] 3 4).menuSet = none ∧
    (handleNativeContextMenu 1000 0 false ⟨none, none, false⟩ [] 3 4).prevented = true := by
  decide

/-- C7 (amended): `preventDefault` runs exactly when the event passes the
debounce and menu-open guards — on every branch of the hit-test cascade,
including the final no-op ones; the default is left alone only when the
click is debounced or a menu is already open. -/
theorem c7_prevent_default (now lastClose : Nat) (hit : HitTarget)
    (images : List ImageMetadata) (x y : Int) :
    (∀ menuOpen, now - lastClose < 300 →
      (handleNativeContextMenu now lastClose menuOpen hit images x y).prevented = false) ∧
    (300 ≤ now - lastClose →
      (handleNativeContextMenu now lastClose true hit images x y).prevented = false) ∧
    (300 ≤ now - lastClose →
      (handleNativeContextMenu now lastClose false hit images x y).prevented = true) := by
  refine ⟨?_, ?_, ?_⟩
  · intro menuOpen h
    rw [handleNativeContextMenu, if_pos h]
  · intro h
    rw [handleNativeContextMenu, if_neg (by omega), routeCore, if_pos rfl]
  · intro h
    rw [handleNativeContextMenu, if_neg (by omega), routeCore_false]
    cases hres : resolveHit images hit
    · by_cases hc : (hit.inMain && decide (0 < images.length)) = true
      · simp [hc]
      · simp [hc]
    · rfl

/-- Witness for C7 (amended): a debounced click leaves the default alone;
a routed click on empty canvas still suppresses it. -/
theorem c7_prevent_default_witness :
    (handleNativeContextMenu 100 0 false ⟨none, none, false⟩ [] 0 0).prevented = false ∧
    (handleNativeContextMenu 400 0 false ⟨none, none, false⟩ [] 0 0).prevented = true := by
  exact ⟨(c7_prevent_default 100 0 ⟨none, none, false⟩ [] 0 0).1 false (by decide),
    (c7_prevent_default 400 0 ⟨none, none, false⟩ [] 0 0).2.2 (by decide)⟩

/-- C8: on the success path `handleCopy` awaits the capture-state reset,
then the copy of the target's locator, then the fixed 100ms settle delay,
then the list refresh, then applies the merge/dedup to the refreshed
list; a rejected step prevents every later step from starting. -/
theorem c8_copy_effect_order (s : AppState) (img : ImageMetadata)
    (data : List ImageMetadata) (fetch : Option (List ImageMetadata)) :
    (handleCopy s img .ok .ok (some data)).1 =
      [.resetClipboardHash, .copyFileToClipboard img.path, .sleep 100,
        .getImages, .applyMergeDedup] ∧
    (handleCopy s img .ok .ok (some data)).2.images = merge data ∧
    (handleCopy s img .err .ok fetch).1 = [.resetClipboardHash] ∧
    (handleCopy s img .ok .err fetch).1 =
      [.resetClipboardHash, .copyFileToClipboard img.path] := by
  exact ⟨rfl, rfl, rfl, rfl⟩

/-- C9: selecting any menu entry closes the menu regardless of the store
action's outcome; a failed delete, clear or copy leaves the displayed
list unchanged; delete removes the record from the displayed list exactly
when the store delete succeeded. -/
theorem c9_menu_failures (s : AppState) (img : ImageMetadata) (now : Nat)
    (fetch : Option (List ImageMetadata)) (o oReset oCopy : Outcome) :
    (clickCopyEntry s img oReset oCopy fetch now).contextMenu.position = none ∧
    (clickDeleteEntry s img o now).contextMenu.position = none ∧
    (clickClearEntry s o now).contextMenu.position = none ∧
    (handleDelete s img .err).images = s.images ∧
    (handleClearAll s .err).images = s.images ∧
    (handleCopy s img .err oCopy fetch).2.images = s.images ∧
    (handleCopy s img .ok .err fetch).2.images = s.images ∧
    (handleDelete s img .ok).images = s.images.filter (fun i => !(i.id == img.id)) := by
  exact ⟨rfl, rfl, rfl, rfl, rfl, rfl, rfl, rfl⟩

/-- C10 counterexample: with the overlay's menu already open and no
record at the current index, the local router still suppresses the
platform default (`preventDefault` runs before the current-record check),
contrary to the claim that every no-record right-click leaves the default
un-suppressed. -/
theorem c10_openmenu_suppression_counterexample :
    (lightboxHandleContextMenu ⟨[], 0, ⟨some ⟨0, 0⟩, none⟩, false⟩ 1 2).prevented = true ∧
    (lightboxHandleContextMenu ⟨[], 0, ⟨some ⟨0, 0⟩, none⟩, false⟩ 1 2).frames =
      [⟨none, none⟩] := by
  decide

/-- C10 (amended): every menu the overlay's local router (and its
`showContextMenu` helper) opens is the two-entry item menu for the record
at the current index — never the clear-all menu; with no record at the
current index no menu opens, and the platform default is left
un-suppressed provided no menu was already open (an already-open menu is
still cleared with the default suppressed). -/
theorem c10_lightbox_item_menu (s : LightboxState) (x y : Int) :
    (∀ m ∈ (lightboxHandleContextMenu s x y).frames, m.position.isSome = true →
      m.image = s.images[s.currentIndex]? ∧
      menuItems m.image = [MenuAction.copy, MenuAction.delete]) ∧
    (∀ m ∈ showContextMenu s x y, m.position.isSome = true →
      m.image = s.images[s.currentIndex]? ∧
      menuItems m.image = [MenuAction.copy, MenuAction.delete]) ∧
    (s.images[s.currentIndex]? = none →
      (∀ m ∈ (lightboxHandleContextMenu s x y).frames, m.position = none) ∧
      ∀ m ∈ showContextMenu s x y, m.position = none) ∧
    (s.images[s.currentIndex]? = none → s.menu.position = none → s.isClosing = false →
      (lightboxHandleContextMenu s x y).prevented = false) := by
  have hmem : ∀ m ∈ (match s.images[s.currentIndex]? with
      | some img => [(⟨some ⟨x, y⟩, some img⟩ : MenuState)]
      | none => ([] : List MenuState)),
      ∃ img, s.images[s.currentIndex]? = some img ∧ m = ⟨some ⟨x, y⟩, some img⟩ := by
    intro m hm
    cases hcur : s.images[s.currentIndex]? with
    | none => rw [hcur] at hm; cases hm
    | some img =>
      rw [hcur] at hm
      have hmeq : m = ⟨some ⟨x, y⟩, some img⟩ := by simpa using hm
      exact ⟨img, rfl, hmeq⟩
  have hframes : ∀ m ∈ (lightboxHandleContextMenu s x y).frames,
      m = ⟨none, none⟩ ∨
      ∃ img, s.images[s.currentIndex]? = some img ∧ m = ⟨some ⟨x, y⟩, some img⟩ := by
    intro m hm
    rw [lightboxHandleContextMenu] at hm
    by_cases hcl : s.isClosing = true
    · rw [if_pos hcl] at hm; cases hm
    · rw [if_neg hcl] at hm
      by_cases hop : s.menu.position.isSome = true
      · rw [if_pos hop] at hm
        rcases List.mem_cons.mp hm with rfl | hm
        · exact Or.inl rfl
        · exact Or.inr (hmem m hm)
      · rw [if_neg hop] at hm
        cases hcur : s.images[s.currentIndex]? with
        | none => rw [hcur] at hm; cases hm
        | some img =>
          rw [hcur] at hm
          have hmeq : m = ⟨some ⟨x, y⟩, some img⟩ := by simpa using hm
          exact Or.inr ⟨img, rfl, hmeq⟩
  have hshowmem : ∀ m ∈ showContextMenu s x y,
      m = ⟨none, none⟩ ∨
      ∃ img, s.images[s.currentIndex]? = some img ∧ m = ⟨some ⟨x, y⟩, some img⟩ := by
    intro m hm
    rw [showContextMenu] at hm
    rcases List.mem_cons.mp hm with rfl | hm
    · exact Or.inl rfl
    · exact Or.inr (hmem m hm)
  refine ⟨?_, ?_, ?_, ?_⟩
  · intro m hm hpos
    rcases hframes m hm with rfl | ⟨img, hcur, rfl⟩
    · cases hpos
    · exact ⟨hcur.symm, rfl⟩
  · intro m hm hpos
    rcases hshowmem m hm with rfl | ⟨img, hcur, rfl⟩
    · cases hpos
    · exact ⟨hcur.symm, rfl⟩
  · intro hnone
    constructor
    · intro m hm
      rcases hframes m hm with rfl | ⟨img, hcur, rfl⟩
      · rfl
      · rw [hnone] at hcur; cases hcur
    · intro m hm
      rcases hshowmem m hm with rfl | ⟨img, hcur, rfl⟩
      · rfl
      · rw [hnone] at hcur; cases hcur
  · intro hnone hop hcl
    rw [lightboxHandleContextMenu, if_neg (by simp [hcl]), if_neg (by simp [hop]), hnone]

/-- Witness for C10 (amended) at a concrete overlay state: the single
frame opened for a right-click is the item menu for the record at the
current index, with the two item entries. -/
theorem c10_lightbox_item_menu_witness :
    (⟨some ⟨1, 2⟩, some ⟨"a", "p1", 3⟩⟩ : MenuState).image = some ⟨"a", "p1", 3⟩ ∧
    menuItems (some ⟨"a", "p1", 3⟩) = [MenuAction.copy, MenuAction.delete] := by
  exact (c10_lightbox_item_menu ⟨[⟨"a", "p1", 3⟩], 0, ⟨none, none⟩, false⟩ 1 2).1
    ⟨some ⟨1, 2⟩, some ⟨"a", "p1", 3⟩⟩ (by decide) (by decide)
